import Mathlib

/-!
# Verification of the type-relation engine (`src/ty_compare.rs`)

A shallow embedding of the type-comparison core: resolution of type-level
variable references and unification placeholders (`resolve`), positive-mode
canonicalization (`canonicalize`), the negative-mode subtype walk with its
`pre_match` unification step, and the variadic-tuple splicer (`splice_ddd`).

The term representation, the generic two-mode walk framework, and the
substitution layer live outside the embedded source file; where the embedding
needs them they are modelled from the specification (each such definition says
so in its doc comment).  Machine recursion that the source performs by
unbounded mutual recursion is embedded with an explicit fuel parameter;
running out of fuel is reported as the distinguished error `Err.outOfFuel`,
which no genuine execution of the source produces.
-/

set_option maxHeartbeats 1000000

namespace TyCompare

/-- A name: either an ordinary interned string, or a generated ("gensym")
name carrying a human-readable hint and a global counter value, as produced
by `Name::gensym` for fresh placeholders. -/
inductive Name where
  | str (s : String)
  | gen (hint : String) (k : Nat)
deriving DecidableEq, Repr

/-- A type term (`Ty` wrapping an `Ast`).  Following the source's fixed set of
constructors that `ty_compare.rs` inspects: a variable reference, the
`type_apply`, `tuple`, `forall_type`, `mu_type` and `dotdotdot_type` core
forms, the engine's own `underdetermined` form (single `id` sub-part), and a
generic tagged node (`Int`, `fn`, `enum`, ...) whose sub-terms are walked
literally and whose form is compared by name. -/
inductive Ty where
  | vr (n : Name)
  | node (f : String) (kids : List Ty)
  | tuple (components : List Ty)
  | typeApply (rator : Ty) (args : List Ty)
  | forallTy (params : List Name) (body : Ty)
  | muTy (params : List Name) (body : Ty)
  | dddTy (drivers : List Name) (body : Ty)
  | undet (id : Name)

mutual
/-- Structural equality on type terms (the term layer's `PartialEq`). -/
def tyBeq : Ty → Ty → Bool
  | .vr n, .vr n' => n = n'
  | .node f ks, .node f' ks' => f = f' && tyBeqList ks ks'
  | .tuple cs, .tuple cs' => tyBeqList cs cs'
  | .typeApply r as, .typeApply r' as' => tyBeq r r' && tyBeqList as as'
  | .forallTy ps b, .forallTy ps' b' => ps = ps' && tyBeq b b'
  | .muTy ps b, .muTy ps' b' => ps = ps' && tyBeq b b'
  | .dddTy ds b, .dddTy ds' b' => ds = ds' && tyBeq b b'
  | .undet i, .undet i' => i = i'
  | _, _ => false

/-- Structural equality on lists of type terms. -/
def tyBeqList : List Ty → List Ty → Bool
  | [], [] => true
  | t :: ts, t' :: ts' => tyBeq t t' && tyBeqList ts ts'
  | _, _ => false
end

theorem tyBeq_iff : ∀ a b : Ty, (tyBeq a b = true ↔ a = b) := by
  apply tyBeq.induct (fun a b => tyBeq a b = true ↔ a = b)
      (fun as bs => tyBeqList as bs = true ↔ as = bs) <;> intros
  all_goals try simp_all [tyBeq, tyBeqList]
  case _ t x h1 h2 h3 h4 h5 h6 h7 h8 =>
    cases t <;> cases x <;>
      first
        | exact (h1 _ _ rfl rfl).elim
        | exact (h2 _ _ _ _ rfl rfl).elim
        | exact (h3 _ _ rfl rfl).elim
        | exact (h4 _ _ _ _ rfl rfl).elim
        | exact (h5 _ _ _ _ rfl rfl).elim
        | exact (h6 _ _ _ _ rfl rfl).elim
        | exact (h7 _ _ _ _ rfl rfl).elim
        | exact (h8 _ _ rfl rfl).elim
        | simp [tyBeq]
  case _ t x h1 h2 =>
    cases t <;> cases x <;>
      first
        | exact (h1 rfl rfl).elim
        | exact (h2 _ _ _ _ rfl rfl).elim
        | simp [tyBeqList]

instance : DecidableEq Ty := fun a b => decidable_of_iff _ (tyBeq_iff a b)

/-- An environment: the ordered-insertion, name-keyed mapping (`Assoc`) from
names to types; `set` prepends and `find` takes the nearest binding. -/
abbrev Env := List (Name × Ty)

/-- `Assoc::find`: nearest (most recently set) binding wins. -/
def envFind (e : Env) (n : Name) : Option Ty :=
  match e with
  | [] => none
  | (m, t) :: rest => if m = n then some t else envFind rest n

/-- `Assoc::set`: prepend a binding (shadowing any older one). -/
def envSet (e : Env) (n : Name) (t : Ty) : Env := (n, t) :: e

/-- A closure: a type term paired with the environment needed to resolve its
free references (`Clo<Ty>` in the source). -/
structure Clo where
  it : Ty
  env : Env
deriving DecidableEq

/-- The Unification Store: a mapping from placeholder names to closures
(the thread-local `unification: HashMap<Name, Clo<Ty>>`). -/
abbrev Unif := List (Name × Clo)

/-- `HashMap::get` on the store. -/
def unifFind (u : Unif) (n : Name) : Option Clo :=
  match u with
  | [] => none
  | (m, c) :: rest => if m = n then some c else unifFind rest n

/-- `HashMap::insert` on the store (newest binding shadows). -/
def unifInsert (u : Unif) (n : Name) (c : Clo) : Unif := (n, c) :: u

/-- The `TyErr` error kinds the embedded core produces. -/
inductive TyErr where
  | mismatch (got expected : Ty)
  | unboundName (n : Name)
  | lengthMismatch (components : List Ty) (expected : Nat)
  | unableToDestructure (t : Ty) (shape : Name)
deriving DecidableEq

/-- Failure outcomes of the embedded functions.  `tyErr` is an ordinary
returned type error; `panic` is a Rust `panic!`/`icp!` (a fatal internal
error, not an ordinary type error); `outOfFuel` is the embedding's marker
for exhausting the explicit fuel. -/
inductive Err where
  | tyErr (e : TyErr)
  | panic (msg : String)
  | outOfFuel
deriving DecidableEq

mutual
/-- Modelled from the spec: the substitution layer's capture-avoiding
substitution of a name-to-term mapping into a term (`crate::alpha::substitute`,
outside the embedded file).  A binder removes its bound names from the
mapping before descending into its body. -/
def substitute (m : List (Name × Ty)) : Ty → Ty
  | .vr n =>
    match envFind m n with
    | some t => t
    | none => .vr n
  | .node f kids => .node f (substituteList m kids)
  | .tuple cs => .tuple (substituteList m cs)
  | .typeApply r args => .typeApply (substitute m r) (substituteList m args)
  | .forallTy ps b => .forallTy ps (substitute (m.filter (fun p => ¬ ps.contains p.1)) b)
  | .muTy ps b => .muTy ps (substitute (m.filter (fun p => ¬ ps.contains p.1)) b)
  | .dddTy ds b => .dddTy ds (substitute (m.filter (fun p => ¬ ds.contains p.1)) b)
  | .undet i => .undet i

/-- Substitution mapped over a list of sub-terms. -/
def substituteList (m : List (Name × Ty)) : List Ty → List Ty
  | [] => []
  | t :: ts => substitute m t :: substituteList m ts
end

/-- `resolve`: follow variable references in `env` and underdeterminednesses
in `unif` until the closure cannot move further.  Mirrors the source:
a variable bound to itself is mu-protected and left alone; a `type_apply`
resolves its operator, and either rebuilds itself around a still-variable
operator (stopping if nothing changed), or substitutes the arguments into a
`forall_type` operator's body (panicking, as the source does, if the
parameter and argument counts differ), or stops on any other operator shape
("broken `type_apply`, but let it fail elsewhere"); an `underdetermined`
node follows its stored closure if present.  The store is read, never
written. -/
def resolve : Nat → Clo → Unif → Except Err Clo
  | 0, _, _ => .error .outOfFuel
  | fuel + 1, ⟨t, env⟩, unif =>
    match t with
    | .vr n =>
      match envFind env n with
      | some t' =>
        if t' = .vr n then .ok ⟨t, env⟩
        else resolve fuel ⟨t', env⟩ unif
      | none => .ok ⟨t, env⟩
    | .typeApply rator args => do
      let rres ← resolve fuel ⟨rator, env⟩ unif
      match rres with
      | ⟨.vr ratorVr, env'⟩ =>
        let res := Ty.typeApply (.vr ratorVr) args
        if res ≠ t then resolve fuel ⟨res, env'⟩ unif else .ok ⟨t, env⟩
      | ⟨.forallTy params body, env'⟩ =>
        if params.length ≠ args.length then
          .error (.panic "Kind error: wrong number of arguments")
        else resolve fuel ⟨substitute (params.zip args) body, env'⟩ unif
      | _ => .ok ⟨t, env⟩
    | .undet i =>
      match unifFind unif i with
      | some clo => resolve fuel clo unif
      | none => .ok ⟨t, env⟩
    | _ => .ok ⟨t, env⟩

/-- Modelled from the spec: the walk framework's beta-import for protected
binders (`import [prot "param"]` and the Canonicalize mode's
`underspecified`, which "simply protects the name"): each parameter is bound
to a variable reference to itself in the ambient environment. -/
def protect (env : Env) (ps : List Name) : Env :=
  ps.foldl (fun e p => envSet e p (.vr p)) env

mutual
/-- The positive (Canonicalize) walk.  `Canonicalize::walk_var` for variable
references (protected variables stay; bound ones are canonicalized through
the environment; unbound ones are returned unchanged); the source's
`underdetermined` positive rule for placeholders (store lookup, failing with
`UnboundName` when absent); all other constructors are walked literally
(their positive rules are external `LiteralLike` rules, modelled from the
spec), with `forall_type`/`mu_type` bodies walked under an environment that
protects their parameters.  The store is read, never written. -/
def canonicalize (fuel : Nat) (t : Ty) (env : Env) (unif : Unif) : Except Err Ty :=
  match t with
  | .vr n =>
    match envFind env n with
    | some t' =>
      if t' = .vr n then .ok (.vr n)
      else
        match fuel with
        | 0 => .error .outOfFuel
        | fuel + 1 => canonicalize fuel t' env unif
    | none => .ok (.vr n)
  | .undet i =>
    match unifFind unif i with
    | some clo =>
      match fuel with
      | 0 => .error .outOfFuel
      | fuel + 1 => canonicalize fuel clo.it clo.env unif
    | none => .error (.tyErr (.unboundName i))
  | .node f kids => do
    let kids' ← canonicalizeList fuel kids env unif
    .ok (.node f kids')
  | .tuple cs => do
    let cs' ← canonicalizeList fuel cs env unif
    .ok (.tuple cs')
  | .typeApply r args => do
    let r' ← canonicalize fuel r env unif
    let args' ← canonicalizeList fuel args env unif
    .ok (.typeApply r' args')
  | .forallTy ps b => do
    let b' ← canonicalize fuel b (protect env ps) unif
    .ok (.forallTy ps b')
  | .muTy ps b => do
    let b' ← canonicalize fuel b (protect env ps) unif
    .ok (.muTy ps b')
  | .dddTy ds b => do
    let b' ← canonicalize fuel b env unif
    .ok (.dddTy ds b')
termination_by (fuel, sizeOf t)

/-- Canonicalization mapped over the sub-terms of a node. -/
def canonicalizeList (fuel : Nat) (ts : List Ty) (env : Env) (unif : Unif) :
    Except Err (List Ty) :=
  match ts with
  | [] => .ok []
  | t :: rest => do
    let t' ← canonicalize fuel t env unif
    let rest' ← canonicalizeList fuel rest env unif
    .ok (t' :: rest')
termination_by (fuel, sizeOf ts)
end

/-- Destructuring against the `underdetermined` form: its `id` sub-part. -/
def undetId : Ty → Option Name
  | .undet i => some i
  | _ => none

/-- `pre_match`: resolve both sides against the current Unification Store;
if both resolve to the same underdetermined id they are definitionally equal
(`none`, no store change); if at least one side resolves to underdetermined,
record a determination binding that id to the other resolved closure and
succeed (`none`); otherwise return both resolved closures for ordinary
structural comparison.  Returns the possibly-updated store. -/
def pre_match (fuel : Nat) (lhs_ty rhs_ty : Ty) (env : Env) (unif : Unif) :
    Except Err (Option (Clo × Clo) × Unif) := do
  let lhs ← resolve fuel ⟨lhs_ty, env⟩ unif
  let rhs ← resolve fuel ⟨rhs_ty, env⟩ unif
  match undetId lhs.it, undetId rhs.it with
  | some l, some r =>
    if l = r then .ok (none, unif)
    else .ok (none, unifInsert unif l rhs)
  | some l, none => .ok (none, unifInsert unif l rhs)
  | none, some r => .ok (none, unifInsert unif r lhs)
  | none, none => .ok (some (lhs, rhs), unif)

/-- Mutable walk state: the session's Unification Store together with the
gensym counter that makes generated placeholder names fresh. -/
structure St where
  unif : Unif
  next : Nat
deriving DecidableEq

/-- `Subtype::underspecified`: a fresh underdetermined type whose `id` is a
gensym of the human-readable hint. -/
def underspecified (hint : String) (st : St) : Ty × St :=
  (.undet (.gen hint st.next), ⟨st.unif, st.next + 1⟩)

/-- A list of `n` fresh underdetermined components. -/
def freshUndets (hint : String) : Nat → St → List Ty × St
  | 0, st => ([], st)
  | n + 1, st =>
    let (t, st') := underspecified hint st
    let (ts, st'') := freshUndets hint n st'
    (t :: ts, st'')

/-- Resolve each driver (a variable reference) of a `dotdotdot_type` against
the Unification Store snapshot, keeping its name. -/
def resolveDrivers (fuel : Nat) (env : Env) : List Name → Unif → Except Err (List (Name × Ty))
  | [], _ => .ok []
  | a :: rest, unif => do
    let r ← resolve fuel ⟨.vr a, env⟩ unif
    let rs ← resolveDrivers fuel env rest unif
    .ok ((a, r.it) :: rs)

/-- Set `name := comps[i]` in position `i`'s environment, for all `i`. -/
def updateEnvs (envs : List Env) (name : Name) (comps : List Ty) : List Env :=
  (envs.zip comps).map (fun ec => envSet ec.1 name ec.2)

/-- The driver loop of `splice_ddd`: a driver resolved to a `tuple` must have
exactly `expectedLen` components (else `LengthMismatch` naming the offending
components and the expected length), and component `i` is assigned to
position `i`'s environment; a driver resolved to `underdetermined` is forced,
by mutating the store, to be a fresh tuple of `expectedLen` fresh
underdetermined components, assigned likewise; any other shape is an
`UnableToDestructure`-as-tuple error. -/
def spliceDrivers (expectedLen : Nat) (dddEnv : Env) :
    List (Name × Ty) → List Env → St → Except Err (List Env × St)
  | [], envs, st => .ok (envs, st)
  | (name, driver) :: rest, envs, st =>
    match driver with
    | .tuple comps =>
      if comps.length ≠ expectedLen then
        .error (.tyErr (.lengthMismatch comps expectedLen))
      else spliceDrivers expectedLen dddEnv rest (updateEnvs envs name comps) st
    | .undet i =>
      let (fresh, st') := freshUndets "ddd_bit" expectedLen st
      spliceDrivers expectedLen dddEnv rest (updateEnvs envs name fresh)
        ⟨unifInsert st'.unif i ⟨.tuple fresh, dddEnv⟩, st'.next⟩
    | _ => .error (.tyErr (.unableToDestructure driver (.str "tuple")))

/-- `splice_ddd`: the Splicer.  Degenerate case first: a single context
element that is itself a `dotdotdot_type` is "no splice" (ordinary comparison
proceeds) unless its body is again a `dotdotdot_type`, which is a hard
internal error (`icp!`, counting nestings is unimplemented).  Otherwise each
driver is resolved against the store and destructured by `spliceDrivers`,
yielding one driver environment per context position plus the unexpanded
body. -/
def splice_ddd (fuel : Nat) (dddEnv : Env) (drivers : List Name) (body : Ty)
    (context_elts : List Ty) (st : St) :
    Except Err (Option (List Env × Ty) × St) :=
  match context_elts with
  | [.dddTy _ (.dddTy _ _)] => .error (.panic "TODO: count up nestings of :::[]:::")
  | [.dddTy _ _] => .ok (none, st)
  | _ => do
    let resolved ← resolveDrivers fuel dddEnv drivers st.unif
    let (envs, st') ← spliceDrivers context_elts.length dddEnv resolved
      (List.replicate context_elts.length []) st
    .ok (some (envs, body), st')

/-- Bind parameter names positionally to types (newest shadows). -/
def bindParams (env : Env) : List Name → List Ty → Env
  | p :: ps, t :: ts => bindParams (envSet env p t) ps ts
  | _, _ => env

mutual
/-- The negative (Subtype) walk of an expected type against a context type.
A variable reference dispatches `Subtype::walk_var` (from the source: the
reference is looked up — `find_or_panic` — and, if mu-protected, the context
must be a reference to the same name, else the walk continues on the bound
type); any other term runs `pre_match` and, unless that short-circuits, the
quasi-literal structural comparison of the two resolved closures.  The
generic dispatch itself is external to the embedded file and is modelled
from the spec. -/
def walkS (fuel : Nat) (sup : Ty) (ctx : Ty) (env : Env) (st : St) :
    Except Err (Env × St) :=
  match fuel with
  | 0 => .error .outOfFuel
  | fuel + 1 =>
    match sup with
    | .vr n =>
      match envFind env n with
      | none => .error (.panic "find_or_panic")
      | some lhs =>
        if lhs = .vr n then
          if ctx = .vr n then .ok ([], st)
          else .error (.tyErr (.mismatch ctx lhs))
        else walkS fuel lhs ctx env st
    | _ => do
      let (o, unif') ← pre_match (fuel + 1) sup ctx env st.unif
      match o with
      | none => .ok ([], ⟨unif', st.next⟩)
      | some (l, r) => compareQL fuel l.it r.it l.env ⟨unif', st.next⟩

/-- Modelled from the spec: the external walk framework's quasi-literal
comparison of two resolved terms, per constructor: same tag and arity, with
sub-terms compared pairwise; `forall_type` binds both sides' parameters to
shared fresh placeholders; `mu_type` re-protects both sides' parameters;
`tuple` defers to the Splicer when the expected side is a single
`dotdotdot_type`; a resolved variable reference re-enters the walk (it is
mu-protected or unbound). -/
def compareQL (fuel : Nat) (l r : Ty) (env : Env) (st : St) : Except Err (Env × St) :=
  match fuel with
  | 0 => .error .outOfFuel
  | fuel + 1 =>
    match l, r with
    | .vr n, _ => walkS fuel (.vr n) r env st
    | .node f ks, .node f' ks' =>
      if f = f' ∧ ks.length = ks'.length then walkPairs fuel ks ks' env st
      else .error (.tyErr (.mismatch r l))
    | .tuple cs, .tuple cs' =>
      match cs with
      | [.dddTy ds b] => do
        let (o, st') ← splice_ddd fuel env ds b cs' st
        match o with
        | none =>
          if cs.length = cs'.length then walkPairs fuel cs cs' env st'
          else .error (.tyErr (.mismatch r l))
        | some (envs, body) => walkSplice fuel body envs cs' env st'
      | _ =>
        if cs.length = cs'.length then walkPairs fuel cs cs' env st
        else .error (.tyErr (.mismatch r l))
    | .typeApply ra as, .typeApply ra' as' =>
      if as.length = as'.length then do
        let (b1, st1) ← walkS fuel ra ra' env st
        let (b2, st2) ← walkPairs fuel as as' env st1
        .ok (b1 ++ b2, st2)
      else .error (.tyErr (.mismatch r l))
    | .forallTy ps b, _ =>
      let (us, st') := freshUndets "forall" ps.length st
      match r with
      | .forallTy ps' b' =>
        if ps.length = ps'.length then
          walkS fuel b b' (bindParams (bindParams env ps us) ps' us) st'
        else .error (.tyErr (.mismatch r l))
      | _ => walkS fuel b r (bindParams env ps us) st'
    | .muTy ps b, .muTy ps' b' =>
      if ps.length = ps'.length then
        walkS fuel b b' (protect (protect env ps) ps') st
      else .error (.tyErr (.mismatch r l))
    | .dddTy ds b, .dddTy ds' b' =>
      if ds.length = ds'.length then do
        let (b1, st1) ← walkPairs fuel (ds.map Ty.vr) (ds'.map Ty.vr) env st
        let (b2, st2) ← walkS fuel b b' env st1
        .ok (b1 ++ b2, st2)
      else .error (.tyErr (.mismatch r l))
    | _, _ => .error (.tyErr (.mismatch r l))

/-- Pairwise negative walk of corresponding sub-terms, merging discovered
bindings and threading the walk state. -/
def walkPairs (fuel : Nat) (ls rs : List Ty) (env : Env) (st : St) :
    Except Err (Env × St) :=
  match fuel with
  | 0 => .error .outOfFuel
  | fuel + 1 =>
    match ls, rs with
    | l :: ls', r :: rs' => do
      let (b1, st1) ← walkS fuel l r env st
      let (b2, st2) ← walkPairs fuel ls' rs' env st1
      .ok (b1 ++ b2, st2)
    | _, _ => .ok ([], st)

/-- Re-walk the splice body once per context position, each time under the
ambient environment extended with that position's driver environment. -/
def walkSplice (fuel : Nat) (body : Ty) (envs : List Env) (ctxs : List Ty)
    (env : Env) (st : St) : Except Err (Env × St) :=
  match fuel with
  | 0 => .error .outOfFuel
  | fuel + 1 =>
    match envs, ctxs with
    | e :: envs', c :: ctxs' => do
      let (b1, st1) ← walkS fuel body c (e ++ env) st
      let (b2, st2) ← walkSplice fuel body envs' ctxs' env st1
      .ok (b1 ++ b2, st2)
    | _, _ => .ok ([], st)
end

/-- `is_subtype(sub, sup, parts)`: `sub` must be a subtype of `sup`; `sub`
becomes the context element of a negative walk of `sup`. -/
def is_subtype (fuel : Nat) (sub sup : Ty) (env : Env) (st : St) :
    Except Err (Env × St) :=
  walkS fuel sup sub env st

/-- `must_subtype`: the top-level, single-environment entry point (same walk
as `is_subtype`). -/
def must_subtype (fuel : Nat) (sub sup : Ty) (env : Env) (st : St) :
    Except Err (Env × St) :=
  walkS fuel sup sub env st

mutual
/-- A term contains no `underdetermined` (placeholder) node. -/
def noUndet : Ty → Bool
  | .vr _ => true
  | .undet _ => false
  | .node _ ks => noUndetList ks
  | .tuple cs => noUndetList cs
  | .typeApply r as => noUndet r && noUndetList as
  | .forallTy _ b => noUndet b
  | .muTy _ b => noUndet b
  | .dddTy _ b => noUndet b

/-- No placeholder node in any list element. -/
def noUndetList : List Ty → Bool
  | [] => true
  | t :: ts => noUndet t && noUndetList ts
end

mutual
/-- A term contains no `type_apply` node. -/
def noTypeApply : Ty → Bool
  | .vr _ => true
  | .undet _ => true
  | .node _ ks => noTypeApplyList ks
  | .tuple cs => noTypeApplyList cs
  | .typeApply _ _ => false
  | .forallTy _ b => noTypeApply b
  | .muTy _ b => noTypeApply b
  | .dddTy _ b => noTypeApply b

/-- No `type_apply` node in any list element. -/
def noTypeApplyList : List Ty → Bool
  | [] => true
  | t :: ts => noTypeApply t && noTypeApplyList ts
end

/-- Every type bound in the environment is `type_apply`-free. -/
def noTypeApplyEnv (e : Env) : Bool := e.all (fun p => noTypeApply p.2)

/-- Every closure stored in the Unification Store is `type_apply`-free,
environment included. -/
def noTypeApplyUnif (u : Unif) : Bool :=
  u.all (fun p => noTypeApply p.2.it && noTypeApplyEnv p.2.env)

mutual
/-- A canonical form relative to an environment: no placeholders, and every
variable reference is either mu-protected or unbound under the environment
in force at its position (binders re-protect their parameters). -/
def isCanonical (env : Env) : Ty → Bool
  | .vr n =>
    match envFind env n with
    | some t' => t' = .vr n
    | none => true
  | .undet _ => false
  | .node _ ks => isCanonicalList env ks
  | .tuple cs => isCanonicalList env cs
  | .typeApply r as => isCanonical env r && isCanonicalList env as
  | .forallTy ps b => isCanonical (protect env ps) b
  | .muTy ps b => isCanonical (protect env ps) b
  | .dddTy _ b => isCanonical env b

/-- Canonical forms, list version. -/
def isCanonicalList (env : Env) : List Ty → Bool
  | [] => true
  | t :: ts => isCanonical env t && isCanonicalList env ts
end

mutual
/-- Well-formed types for the reflexivity property: built from generic
nodes, tuples, `forall_type` and `mu_type`, with every variable reference
bound by an enclosing binder (`bound` tracks the binders in scope).
`type_apply` (whose expansion can diverge on ill-founded environments),
splices and raw placeholders are excluded. -/
def wfB (bound : List Name) : Ty → Bool
  | .vr n => bound.contains n
  | .undet _ => false
  | .node _ ks => wfBList bound ks
  | .tuple cs =>
    match cs with
    | [.dddTy _ _] => false
    | _ => wfBList bound cs
  | .typeApply _ _ => false
  | .forallTy ps b => wfB (ps ++ bound) b
  | .muTy ps b => wfB (ps ++ bound) b
  | .dddTy _ _ => false

/-- Well-formedness, list version. -/
def wfBList (bound : List Name) : List Ty → Bool
  | [] => true
  | t :: ts => wfB bound t && wfBList bound ts
end

/-- A closed well-formed type (no free variable references at all). -/
def wfTy (t : Ty) : Bool := wfB [] t

mutual
/-- Fuel sufficient for the reflexive walk of a well-formed type. -/
def fuelNeed : Ty → Nat
  | .vr _ => 4
  | .undet _ => 4
  | .node _ ks => 2 + fuelNeedList ks
  | .tuple cs => 2 + fuelNeedList cs
  | .typeApply r as => 2 + fuelNeed r + fuelNeedList as
  | .forallTy _ b => 2 + fuelNeed b
  | .muTy _ b => 2 + fuelNeed b
  | .dddTy _ b => 2 + fuelNeed b

/-- Fuel sufficient for a pairwise reflexive walk, list version. -/
def fuelNeedList : List Ty → Nat
  | [] => 1
  | t :: ts => 1 + max (fuelNeed t) (fuelNeedList ts)
end

/-- Gensym hygiene: the store holds no binding for any generated name at or
beyond the current counter (so freshly generated placeholders are unbound). -/
def FreshSt (st : St) : Prop :=
  ∀ s k, st.next ≤ k → unifFind st.unif (.gen s k) = none

/-- The binder-bound names are each either mu-protected or bound to a
generated placeholder that the store leaves underdetermined. -/
def EnvOk (u : Unif) (env : Env) (bound : List Name) : Prop :=
  ∀ n, n ∈ bound →
    envFind env n = some (.vr n) ∨
    ∃ s k, envFind env n = some (.undet (.gen s k)) ∧ unifFind u (.gen s k) = none

/-- The `basic_mu` example from the source's tests: `μ X. X`. -/
def basicMu : Ty := .muTy [.str "X"] (.vr (.str "X"))

/-- The test environment binding the recursive type's own name. -/
def muEnv : Env := [(.str "X", basicMu)]

/-- Environment for the idempotence counterexample: `b` is a concrete type
here, but the store's closure mu-protects `b` in its own environment. -/
def c8Env : Env := [(.str "b", .node "Float" [])]

/-- A store binding placeholder `i` to a closure whose environment
mu-protects `b` — reachable because `pre_match` captures the comparison-time
environment, protections included, when it records a determination. -/
def c8Unif : Unif := [(.str "i", ⟨.vr (.str "b"), [(.str "b", .vr (.str "b"))]⟩)]

end TyCompare

namespace TyCompare

/-- C1 (amended): before every negative structural comparison, `pre_match`
resolves both closures against the current Unification Store; if both
resolve to underdetermined placeholders with the same id the comparison
succeeds immediately with no new bindings and no store change; if at least
one side resolves to an underdetermined placeholder (including the case of
two placeholders with different ids, where the first side's placeholder is
the one bound), a determination binding that id to the other resolved
closure is recorded and the comparison succeeds immediately; only when
neither side resolves to a placeholder are both resolved closures returned
for ordinary structural comparison, with the store unchanged. -/
theorem pre_match_spec (fuel : Nat) (lhs_ty rhs_ty : Ty) (env : Env) (unif : Unif)
    (L R : Clo)
    (hL : resolve fuel ⟨lhs_ty, env⟩ unif = .ok L)
    (hR : resolve fuel ⟨rhs_ty, env⟩ unif = .ok R) :
    (∀ l, undetId L.it = some l → undetId R.it = some l →
      pre_match fuel lhs_ty rhs_ty env unif = .ok (none, unif)) ∧
    (∀ l r, undetId L.it = some l → undetId R.it = some r → l ≠ r →
      pre_match fuel lhs_ty rhs_ty env unif = .ok (none, unifInsert unif l R)) ∧
    (∀ l, undetId L.it = some l → undetId R.it = none →
      pre_match fuel lhs_ty rhs_ty env unif = .ok (none, unifInsert unif l R)) ∧
    (∀ r, undetId L.it = none → undetId R.it = some r →
      pre_match fuel lhs_ty rhs_ty env unif = .ok (none, unifInsert unif r L)) ∧
    (undetId L.it = none → undetId R.it = none →
      pre_match fuel lhs_ty rhs_ty env unif = .ok (some (L, R), unif)) := by
  refine ⟨?_, ?_, ?_, ?_, ?_⟩ <;> intros <;>
    simp_all [pre_match, Bind.bind, Except.bind]

/-- C1 counterexample: when both sides resolve to underdetermined
placeholders with different ids, the claim's "otherwise" clause says the
resolved closures are returned for ordinary structural comparison; instead
`pre_match` records a binding from the first id to the second placeholder's
closure and succeeds immediately (`none`). -/
theorem pre_match_counterexample :
    pre_match 5 (.undet (.str "a")) (.undet (.str "b")) [] [] =
      .ok (none, [((Name.str "a"), ⟨.undet (.str "b"), []⟩)]) := by
  rfl

/-- Witness for C1: a concrete underdetermined context side is bound to the
concrete expected side. -/
theorem pre_match_spec_witness :
    pre_match 3 (.node "Int" []) (.undet (.str "u")) [] [] =
      .ok (none, unifInsert [] (.str "u") ⟨.node "Int" [], []⟩) := by
  exact (pre_match_spec 3 (.node "Int" []) (.undet (.str "u")) [] []
    ⟨.node "Int" [], []⟩ ⟨.undet (.str "u"), []⟩ rfl rfl).2.2.2.1 (.str "u") rfl rfl
end TyCompare

namespace TyCompare

theorem envFind_noTypeApply : ∀ (e : Env) (n : Name) (t : Ty),
    noTypeApplyEnv e = true → envFind e n = some t → noTypeApply t = true := by
  intro e n t he h
  induction e with
  | nil => simp [envFind] at h
  | cons p rest ih =>
    simp [noTypeApplyEnv] at he
    rw [envFind] at h
    by_cases hp : p.1 = n
    · simp [hp] at h
      subst h
      exact he.1
    · simp [hp] at h
      exact ih (by simp [noTypeApplyEnv]; exact he.2) h

theorem unifFind_noTypeApply : ∀ (u : Unif) (n : Name) (c : Clo),
    noTypeApplyUnif u = true → unifFind u n = some c →
    noTypeApply c.it = true ∧ noTypeApplyEnv c.env = true := by
  intro u n c hu h
  induction u with
  | nil => simp [unifFind] at h
  | cons p rest ih =>
    simp [noTypeApplyUnif] at hu
    rw [unifFind] at h
    by_cases hp : p.1 = n
    · simp [hp] at h
      subst h
      exact hu.1
    · simp [hp] at h
      exact ih (by simp [noTypeApplyUnif]; exact hu.2) h

/-- C2 (amended): `resolve` never mutates the Unification Store (in this
embedding it takes the store read-only and returns only a closure), and on
closures, environments and stores free of `type_apply` nodes it raises no
error at all — the only non-success outcome is exhausting the embedding's
explicit fuel.  The original claim's further assertion, that a `type_apply`
of a `forall_type` with mismatched parameter/argument counts also cannot
make `resolve` fail, is refuted by `resolve_counterexample`: that shape
panics inside `resolve` with a fatal kind error. -/
theorem resolve_total : ∀ (fuel : Nat) (t : Ty) (env : Env) (unif : Unif),
    noTypeApply t = true → noTypeApplyEnv env = true → noTypeApplyUnif unif = true →
    (∃ c, resolve fuel ⟨t, env⟩ unif = .ok c) ∨
      resolve fuel ⟨t, env⟩ unif = .error .outOfFuel := by
  intro fuel
  induction fuel with
  | zero => intro t env unif _ _ _; right; rfl
  | succ f ih =>
    intro t env unif ht henv hu
    cases t with
    | vr n =>
      rw [resolve]
      cases h : envFind env n with
      | none => exact Or.inl ⟨_, rfl⟩
      | some t' =>
        by_cases hv : t' = Ty.vr n
        · simp [hv]
        · simp [hv]
          exact ih t' env unif (envFind_noTypeApply env n t' henv h) henv hu
    | typeApply r as => simp [noTypeApply] at ht
    | undet i =>
      rw [resolve]
      cases h : unifFind unif i with
      | none => exact Or.inl ⟨_, rfl⟩
      | some clo =>
        obtain ⟨h1, h2⟩ := unifFind_noTypeApply unif i clo hu h
        exact ih clo.it clo.env unif h1 h2 hu
    | node f' ks => exact Or.inl ⟨_, rfl⟩
    | tuple cs => exact Or.inl ⟨_, rfl⟩
    | forallTy ps b => exact Or.inl ⟨_, rfl⟩
    | muTy ps b => exact Or.inl ⟨_, rfl⟩
    | dddTy ds b => exact Or.inl ⟨_, rfl⟩

/-- C2 counterexample: resolving a `type_apply` whose operator resolves to a
`forall_type` with one parameter but zero arguments panics ("Kind error:
wrong number of arguments") — `resolve` itself aborts, contradicting the
claim that such shapes are left for a later structural check. -/
theorem resolve_counterexample :
    resolve 5 ⟨.typeApply (.vr (.str "F")) [],
        [(.str "F", .forallTy [.str "t"] (.node "Int" []))]⟩ [] =
      .error (.panic "Kind error: wrong number of arguments") := by
  rfl

/-- Witness for C2: a concrete `type_apply`-free closure resolves without
error. -/
theorem resolve_total_witness :
    (∃ c, resolve 5 ⟨.tuple [.node "Int" []], []⟩ [] = .ok c) ∨
      resolve 5 ⟨.tuple [.node "Int" []], []⟩ [] = .error .outOfFuel := by
  exact resolve_total 5 (.tuple [.node "Int" []]) [] [] (by decide) (by decide) (by decide)

/-- C4: during a negative walk, a variable reference on the expected side
that is bound in the environment to a different type continues the walk of
that bound type against the same context; when it is bound to itself
(mu-protected) the check succeeds with no new bindings exactly when the
context is a variable reference to the same protected name, and otherwise
fails with a `Mismatch` error carrying the context and the protected
reference. -/
theorem walk_var_spec (fuel : Nat) (n : Name) (env : Env) (ctx : Ty) (st : St) (lhs : Ty)
    (h : envFind env n = some lhs) :
    (lhs = .vr n → ctx = .vr n → walkS (fuel + 1) (.vr n) ctx env st = .ok ([], st)) ∧
    (lhs = .vr n → ctx ≠ .vr n →
      walkS (fuel + 1) (.vr n) ctx env st = .error (.tyErr (.mismatch ctx lhs))) ∧
    (lhs ≠ .vr n → walkS (fuel + 1) (.vr n) ctx env st = walkS fuel lhs ctx env st) := by
  refine ⟨?_, ?_, ?_⟩ <;> intros <;> simp_all [walkS]

/-- Witness for C4: a mu-protected variable compared against itself
succeeds with no bindings. -/
theorem walk_var_spec_witness :
    walkS 1 (.vr (.str "X")) (.vr (.str "X")) [(.str "X", .vr (.str "X"))] ⟨[], 0⟩ =
      .ok ([], ⟨[], 0⟩) := by
  exact (walk_var_spec 0 (.str "X") [(.str "X", .vr (.str "X"))] (.vr (.str "X"))
    ⟨[], 0⟩ (.vr (.str "X")) rfl).1 rfl rfl

/-- C5: when the Splicer is invoked with exactly one context element that is
itself a `dotdotdot_type` wrapping the same body (and whose body is not
itself a `dotdotdot_type`), it returns "no splice" (`none`) with the state
untouched, so ordinary comparison proceeds; when that single element is a
`dotdotdot_type` whose body is again a `dotdotdot_type`, the Splicer raises
a hard internal error (`icp!`), not an ordinary type error. -/
theorem splice_ddd_degenerate_spec (fuel : Nat) (dddEnv : Env) (drivers : List Name)
    (body : Ty) (st : St) :
    (∀ ds b, (∀ ds2 b2, b ≠ .dddTy ds2 b2) → b = body →
      splice_ddd fuel dddEnv drivers body [.dddTy ds b] st = .ok (none, st)) ∧
    (∀ ds ds2 b2,
      splice_ddd fuel dddEnv drivers body [.dddTy ds (.dddTy ds2 b2)] st =
        .error (.panic "TODO: count up nestings of :::[]:::")) := by
  constructor
  · intro ds b hb _
    cases b with
    | dddTy ds2 b2 => exact absurd rfl (hb ds2 b2)
    | vr _ => rfl
    | node _ _ => rfl
    | tuple _ => rfl
    | typeApply _ _ => rfl
    | forallTy _ _ => rfl
    | muTy _ _ => rfl
    | undet _ => rfl
  · intro ds ds2 b2; rfl

/-- Witness for C5: a single-repetition splice-against-splice returns "no
splice". -/
theorem splice_ddd_degenerate_spec_witness :
    splice_ddd 5 [] [.str "T"] (.vr (.str "T"))
        [.dddTy [.str "T"] (.vr (.str "T"))] ⟨[], 0⟩ = .ok (none, ⟨[], 0⟩) := by
  exact (splice_ddd_degenerate_spec 5 [] [.str "T"] (.vr (.str "T")) ⟨[], 0⟩).1
    [.str "T"] (.vr (.str "T")) (fun _ _ => by simp) rfl

/-- C9: the divergence guards for self-referential types.  `resolve` stops
immediately (using one step of fuel, independent of the environment's other
content) on any variable bound to itself, and the full subtype check of the
self-referential `μ X. X` against itself, under the environment binding its
own name, terminates within fuel 8 — a bound proportional to the term's
size — returning success with no bindings and no store change. -/
theorem divergence_guard :
    (∀ (fuel : Nat) (env : Env) (n : Name) (unif : Unif),
      envFind env n = some (.vr n) →
      resolve (fuel + 1) ⟨.vr n, env⟩ unif = .ok ⟨.vr n, env⟩) ∧
    must_subtype 8 basicMu basicMu muEnv ⟨[], 0⟩ = .ok ([], ⟨[], 0⟩) := by
  constructor
  · intro fuel env n unif h
    simp [resolve, h]
  · rfl

/-- Witness for C9: the protected-variable stop at a concrete input. -/
theorem divergence_guard_witness :
    resolve 1 ⟨.vr (.str "X"), [(.str "X", .vr (.str "X"))]⟩ [] =
      .ok ⟨.vr (.str "X"), [(.str "X", .vr (.str "X"))]⟩ := by
  exact divergence_guard.1 0 [(.str "X", .vr (.str "X"))] (.str "X") [] rfl

end TyCompare

namespace TyCompare

theorem splice_ddd_nondegenerate (fuel : Nat) (dddEnv : Env) (drivers : List Name)
    (body : Ty) (ctx : List Ty) (st : St) (h : ∀ ds b, ctx ≠ [Ty.dddTy ds b]) :
    splice_ddd fuel dddEnv drivers body ctx st = (do
      let resolved ← resolveDrivers fuel dddEnv drivers st.unif
      let (envs, st') ← spliceDrivers ctx.length dddEnv resolved
        (List.replicate ctx.length []) st
      .ok (some (envs, body), st')) := by
  unfold splice_ddd
  split
  · exact absurd rfl (h _ _)
  · exact absurd rfl (h _ _)
  · rfl

/-- C3: for a named driver of a splice with N context elements, after
resolving the driver through the Unification Store: a driver resolving to a
tuple whose component count differs from N fails with `LengthMismatch`
carrying the offending components and N; a driver resolving to a tuple of
exactly N components assigns component `i` to position `i`'s environment,
with no store change; a driver resolving to an underdetermined placeholder
mutates the store to bind that placeholder to a fresh tuple of N fresh
underdetermined components, assigning component `i` to position `i`'s
environment; any other resolved shape fails with an
unable-to-destructure-as-tuple error. -/
theorem splice_ddd_driver_spec (fuel : Nat) (dddEnv : Env) (d : Name) (body : Ty)
    (ctx : List Ty) (st : St) (r : Clo)
    (hnd : ∀ ds b, ctx ≠ [Ty.dddTy ds b])
    (hres : resolve fuel ⟨.vr d, dddEnv⟩ st.unif = .ok r) :
    (∀ comps, r.it = .tuple comps → comps.length ≠ ctx.length →
      splice_ddd fuel dddEnv [d] body ctx st =
        .error (.tyErr (.lengthMismatch comps ctx.length))) ∧
    (∀ comps, r.it = .tuple comps → comps.length = ctx.length →
      splice_ddd fuel dddEnv [d] body ctx st =
        .ok (some (updateEnvs (List.replicate ctx.length []) d comps, body), st)) ∧
    (∀ i, r.it = .undet i →
      splice_ddd fuel dddEnv [d] body ctx st =
        .ok (some (updateEnvs (List.replicate ctx.length []) d
              (freshUndets "ddd_bit" ctx.length st).1, body),
          ⟨unifInsert ((freshUndets "ddd_bit" ctx.length st).2).unif i
              ⟨.tuple (freshUndets "ddd_bit" ctx.length st).1, dddEnv⟩,
            ((freshUndets "ddd_bit" ctx.length st).2).next⟩)) ∧
    ((∀ comps, r.it ≠ .tuple comps) → (∀ i, r.it ≠ .undet i) →
      splice_ddd fuel dddEnv [d] body ctx st =
        .error (.tyErr (.unableToDestructure r.it (.str "tuple")))) := by
  rw [splice_ddd_nondegenerate fuel dddEnv [d] body ctx st hnd]
  refine ⟨?_, ?_, ?_, ?_⟩
  · intro comps hc hlen
    simp [resolveDrivers, hres, Bind.bind, Except.bind, spliceDrivers, hc, hlen]
  · intro comps hc hlen
    simp [resolveDrivers, hres, Bind.bind, Except.bind, spliceDrivers, hc, hlen]
  · intro i hi
    simp [resolveDrivers, hres, Bind.bind, Except.bind, spliceDrivers, hi]
  · intro h1 h2
    simp only [resolveDrivers, hres, Bind.bind, Except.bind]
    cases hshape : r.it with
    | tuple comps => exact absurd hshape (h1 comps)
    | undet i => exact absurd hshape (h2 i)
    | vr _ => simp [spliceDrivers, hshape] at hres ⊢
    | node _ _ => simp [spliceDrivers, hshape] at hres ⊢
    | typeApply _ _ => simp [spliceDrivers, hshape] at hres ⊢
    | forallTy _ _ => simp [spliceDrivers, hshape] at hres ⊢
    | muTy _ _ => simp [spliceDrivers, hshape] at hres ⊢
    | dddTy _ _ => simp [spliceDrivers, hshape] at hres ⊢

end TyCompare

namespace TyCompare

theorem canonicalize_noUndet : ∀ (fuel : Nat) (t : Ty) (env : Env) (unif : Unif),
    ∀ t', canonicalize fuel t env unif = .ok t' → noUndet t' = true := by
  apply canonicalize.induct
    (fun fuel t env unif => ∀ t', canonicalize fuel t env unif = .ok t' → noUndet t' = true)
    (fun fuel ts env unif =>
      ∀ ts', canonicalizeList fuel ts env unif = .ok ts' → noUndetList ts' = true)
  case _ => -- vr protected
    intro fuel env unif n h t' ht
    rw [canonicalize] at ht
    simp [h] at ht
    simp [← ht, noUndet]
  case _ => -- vr bound, fuel 0
    intro env unif n t h hne t' ht
    rw [canonicalize] at ht
    simp [h, hne] at ht
  case _ => -- vr bound, succ
    intro env unif n t h hne fuel ih t' ht
    rw [canonicalize] at ht
    simp [h, hne] at ht
    exact ih t' ht
  case _ => -- vr unbound
    intro fuel env unif n h t' ht
    rw [canonicalize] at ht
    simp [h] at ht
    simp [← ht, noUndet]
  case _ => -- undet bound, fuel 0
    intro env unif i clo h t' ht
    rw [canonicalize] at ht
    simp [h] at ht
  case _ => -- undet bound, succ
    intro env unif i clo h fuel ih t' ht
    rw [canonicalize] at ht
    simp [h] at ht
    exact ih t' ht
  case _ => -- undet unbound
    intro fuel env unif i h t' ht
    rw [canonicalize] at ht
    simp [h] at ht
  case _ => -- node
    intro fuel env unif f kids ih t' ht
    rw [canonicalize] at ht
    cases hk : canonicalizeList fuel kids env unif with
    | error e => simp [hk, Bind.bind, Except.bind] at ht
    | ok ks' =>
      simp [hk, Bind.bind, Except.bind] at ht
      simp [← ht, noUndet]
      exact ih ks' hk
  case _ => -- tuple
    intro fuel env unif cs ih t' ht
    rw [canonicalize] at ht
    cases hk : canonicalizeList fuel cs env unif with
    | error e => simp [hk, Bind.bind, Except.bind] at ht
    | ok cs' =>
      simp [hk, Bind.bind, Except.bind] at ht
      simp [← ht, noUndet]
      exact ih cs' hk
  case _ => -- typeApply
    intro fuel env unif r args ihr iha t' ht
    rw [canonicalize] at ht
    cases hr : canonicalize fuel r env unif with
    | error e => simp [hr, Bind.bind, Except.bind] at ht
    | ok r' =>
      cases ha : canonicalizeList fuel args env unif with
      | error e => simp [hr, ha, Bind.bind, Except.bind] at ht
      | ok as' =>
        simp [hr, ha, Bind.bind, Except.bind] at ht
        simp [← ht, noUndet]
        exact ⟨ihr r' hr, iha as' ha⟩
  case _ => -- forallTy
    intro fuel env unif ps b ih t' ht
    rw [canonicalize] at ht
    cases hb : canonicalize fuel b (protect env ps) unif with
    | error e => simp [hb, Bind.bind, Except.bind] at ht
    | ok b' =>
      simp [hb, Bind.bind, Except.bind] at ht
      simp [← ht, noUndet]
      exact ih b' hb
  case _ => -- muTy
    intro fuel env unif ps b ih t' ht
    rw [canonicalize] at ht
    cases hb : canonicalize fuel b (protect env ps) unif with
    | error e => simp [hb, Bind.bind, Except.bind] at ht
    | ok b' =>
      simp [hb, Bind.bind, Except.bind] at ht
      simp [← ht, noUndet]
      exact ih b' hb
  case _ => -- dddTy
    intro fuel env unif ds b ih t' ht
    rw [canonicalize] at ht
    cases hb : canonicalize fuel b env unif with
    | error e => simp [hb, Bind.bind, Except.bind] at ht
    | ok b' =>
      simp [hb, Bind.bind, Except.bind] at ht
      simp [← ht, noUndet]
      exact ih b' hb
  case _ => -- list nil
    intro fuel env unif ts' ht
    rw [canonicalizeList] at ht
    injection ht with h
    subst h
    rfl
  case _ => -- list cons
    intro fuel env unif t ts iht ihts ts' ht
    rw [canonicalizeList] at ht
    cases h1 : canonicalize fuel t env unif with
    | error e => simp [h1, Bind.bind, Except.bind] at ht
    | ok t1 =>
      cases h2 : canonicalizeList fuel ts env unif with
      | error e => simp [h1, h2, Bind.bind, Except.bind] at ht
      | ok ts1 =>
        simp [h1, h2, Bind.bind, Except.bind] at ht
        simp [← ht, noUndetList]
        exact ⟨iht t1 h1, ihts ts1 h2⟩

end TyCompare

namespace TyCompare

/-- C7: canonicalizing a term carrying the underdetermined tag looks its id
up in the Unification Store — failing with an unbound-name error exactly
when the id is absent — and canonicalizes the stored closure when present;
canonicalization never mutates the store (read-only by construction in this
embedding) and introduces no new placeholders: every successful result is
entirely placeholder-free. -/
theorem canonicalize_underdetermined_spec :
    (∀ (fuel : Nat) (i : Name) (env : Env) (unif : Unif),
      unifFind unif i = none →
      canonicalize fuel (.undet i) env unif = .error (.tyErr (.unboundName i))) ∧
    (∀ (fuel : Nat) (i : Name) (env : Env) (unif : Unif) (clo : Clo),
      unifFind unif i = some clo →
      canonicalize (fuel + 1) (.undet i) env unif = canonicalize fuel clo.it clo.env unif) ∧
    (∀ (fuel : Nat) (t : Ty) (env : Env) (unif : Unif) (t' : Ty),
      canonicalize fuel t env unif = .ok t' → noUndet t' = true) := by
  refine ⟨?_, ?_, canonicalize_noUndet⟩
  · intro fuel i env unif h
    rw [canonicalize]
    simp [h]
  · intro fuel i env unif clo h
    rw [canonicalize]
    simp [h]

/-- Witness for C7: an unbound placeholder fails with `UnboundName`, and a
concrete successful canonicalization is placeholder-free. -/
theorem canonicalize_underdetermined_spec_witness :
    canonicalize 4 (.undet (.str "p")) [] [] = .error (.tyErr (.unboundName (.str "p"))) ∧
    noUndet (.node "Int" []) = true := by
  refine ⟨canonicalize_underdetermined_spec.1 4 (.str "p") [] [] rfl,
    canonicalize_underdetermined_spec.2.2 4 (.node "Int" []) [] [] (.node "Int" []) ?_⟩
  simp [canonicalize, canonicalizeList, Bind.bind, Except.bind]

theorem canonicalize_unboundName_from_store :
    ∀ (fuel : Nat) (t : Ty) (env : Env) (unif : Unif),
    ∀ m, canonicalize fuel t env unif = .error (.tyErr (.unboundName m)) →
      unifFind unif m = none := by
  apply canonicalize.induct
    (fun fuel t env unif => ∀ m,
      canonicalize fuel t env unif = .error (.tyErr (.unboundName m)) → unifFind unif m = none)
    (fun fuel ts env unif => ∀ m,
      canonicalizeList fuel ts env unif = .error (.tyErr (.unboundName m)) → unifFind unif m = none)
  case _ =>
    intro fuel env unif n h m ht
    rw [canonicalize] at ht
    simp [h] at ht
  case _ =>
    intro env unif n t h hne m ht
    rw [canonicalize] at ht
    simp [h, hne] at ht
  case _ =>
    intro env unif n t h hne fuel ih m ht
    rw [canonicalize] at ht
    simp [h, hne] at ht
    exact ih m ht
  case _ =>
    intro fuel env unif n h m ht
    rw [canonicalize] at ht
    simp [h] at ht
  case _ =>
    intro env unif i clo h m ht
    rw [canonicalize] at ht
    simp [h] at ht
  case _ =>
    intro env unif i clo h fuel ih m ht
    rw [canonicalize] at ht
    simp [h] at ht
    exact ih m ht
  case _ =>
    intro fuel env unif i h m ht
    rw [canonicalize] at ht
    simp [h] at ht
    exact ht ▸ h
  case _ =>
    intro fuel env unif f kids ih m ht
    rw [canonicalize] at ht
    cases hk : canonicalizeList fuel kids env unif with
    | error e =>
      simp [hk, Bind.bind, Except.bind] at ht
      subst ht
      exact ih m hk
    | ok ks' => simp [hk, Bind.bind, Except.bind] at ht
  case _ =>
    intro fuel env unif cs ih m ht
    rw [canonicalize] at ht
    cases hk : canonicalizeList fuel cs env unif with
    | error e =>
      simp [hk, Bind.bind, Except.bind] at ht
      subst ht
      exact ih m hk
    | ok cs' => simp [hk, Bind.bind, Except.bind] at ht
  case _ =>
    intro fuel env unif r args ihr iha m ht
    rw [canonicalize] at ht
    cases hr : canonicalize fuel r env unif with
    | error e =>
      simp [hr, Bind.bind, Except.bind] at ht
      subst ht
      exact ihr m hr
    | ok r' =>
      cases ha : canonicalizeList fuel args env unif with
      | error e =>
        simp [hr, ha, Bind.bind, Except.bind] at ht
        subst ht
        exact iha m ha
      | ok as' => simp [hr, ha, Bind.bind, Except.bind] at ht
  case _ =>
    intro fuel env unif ps b ih m ht
    rw [canonicalize] at ht
    cases hb : canonicalize fuel b (protect env ps) unif with
    | error e =>
      simp [hb, Bind.bind, Except.bind] at ht
      subst ht
      exact ih m hb
    | ok b' => simp [hb, Bind.bind, Except.bind] at ht
  case _ =>
    intro fuel env unif ps b ih m ht
    rw [canonicalize] at ht
    cases hb : canonicalize fuel b (protect env ps) unif with
    | error e =>
      simp [hb, Bind.bind, Except.bind] at ht
      subst ht
      exact ih m hb
    | ok b' => simp [hb, Bind.bind, Except.bind] at ht
  case _ =>
    intro fuel env unif ds b ih m ht
    rw [canonicalize] at ht
    cases hb : canonicalize fuel b env unif with
    | error e =>
      simp [hb, Bind.bind, Except.bind] at ht
      subst ht
      exact ih m hb
    | ok b' => simp [hb, Bind.bind, Except.bind] at ht
  case _ =>
    intro fuel env unif m ht
    rw [canonicalizeList] at ht
    simp at ht
  case _ =>
    intro fuel env unif t ts iht ihts m ht
    rw [canonicalizeList] at ht
    cases h1 : canonicalize fuel t env unif with
    | error e =>
      simp [h1, Bind.bind, Except.bind] at ht
      subst ht
      exact iht m h1
    | ok t1 =>
      cases h2 : canonicalizeList fuel ts env unif with
      | error e =>
        simp [h1, h2, Bind.bind, Except.bind] at ht
        subst ht
        exact ihts m h2
      | ok ts1 => simp [h1, h2, Bind.bind, Except.bind] at ht

/-- C10: a variable reference whose name is not bound at all in the
environment canonicalizes successfully to itself, with no unbound-name
error; an unbound-name failure can only name an id that is absent from the
Unification Store, i.e. it comes from a placeholder, not from an unbound
variable reference. -/
theorem canonicalize_unbound_var_spec :
    (∀ (fuel : Nat) (n : Name) (env : Env) (unif : Unif),
      envFind env n = none → canonicalize fuel (.vr n) env unif = .ok (.vr n)) ∧
    (∀ (fuel : Nat) (t : Ty) (env : Env) (unif : Unif) (m : Name),
      canonicalize fuel t env unif = .error (.tyErr (.unboundName m)) →
        unifFind unif m = none) := by
  refine ⟨?_, canonicalize_unboundName_from_store⟩
  intro fuel n env unif h
  rw [canonicalize]
  simp [h]

/-- Witness for C10: a concrete unbound reference survives canonicalization
unchanged. -/
theorem canonicalize_unbound_var_spec_witness :
    canonicalize 4 (.vr (.str "free")) [(.str "x", .node "Int" [])] [] =
      .ok (.vr (.str "free")) := by
  exact canonicalize_unbound_var_spec.1 4 (.str "free") [(.str "x", .node "Int" [])] [] rfl

end TyCompare

namespace TyCompare

theorem isCanonical_fix : ∀ (fuel : Nat) (t : Ty) (env : Env) (unif : Unif),
    isCanonical env t = true → canonicalize fuel t env unif = .ok t := by
  apply canonicalize.induct
    (fun fuel t env unif => isCanonical env t = true → canonicalize fuel t env unif = .ok t)
    (fun fuel ts env unif =>
      isCanonicalList env ts = true → canonicalizeList fuel ts env unif = .ok ts)
  case _ =>
    intro fuel env unif n h _
    rw [canonicalize]
    simp [h]
  case _ =>
    intro env unif n t h hne hc
    rw [isCanonical] at hc
    simp [h] at hc
    exact absurd hc hne
  case _ =>
    intro env unif n t h hne fuel _ hc
    rw [isCanonical] at hc
    simp [h] at hc
    exact absurd hc hne
  case _ =>
    intro fuel env unif n h _
    rw [canonicalize]
    simp [h]
  case _ =>
    intro env unif i clo _ hc
    rw [isCanonical] at hc
    simp at hc
  case _ =>
    intro env unif i clo _ fuel _ hc
    rw [isCanonical] at hc
    simp at hc
  case _ =>
    intro fuel env unif i _ hc
    rw [isCanonical] at hc
    simp at hc
  case _ =>
    intro fuel env unif f kids ih hc
    rw [isCanonical] at hc
    rw [canonicalize]
    simp [ih hc, Bind.bind, Except.bind]
  case _ =>
    intro fuel env unif cs ih hc
    rw [isCanonical] at hc
    rw [canonicalize]
    simp [ih hc, Bind.bind, Except.bind]
  case _ =>
    intro fuel env unif r args ihr iha hc
    rw [isCanonical] at hc
    simp at hc
    rw [canonicalize]
    simp [ihr hc.1, iha hc.2, Bind.bind, Except.bind]
  case _ =>
    intro fuel env unif ps b ih hc
    rw [isCanonical] at hc
    rw [canonicalize]
    simp [ih hc, Bind.bind, Except.bind]
  case _ =>
    intro fuel env unif ps b ih hc
    rw [isCanonical] at hc
    rw [canonicalize]
    simp [ih hc, Bind.bind, Except.bind]
  case _ =>
    intro fuel env unif ds b ih hc
    rw [isCanonical] at hc
    rw [canonicalize]
    simp [ih hc, Bind.bind, Except.bind]
  case _ =>
    intro fuel env unif _
    rw [canonicalizeList]
  case _ =>
    intro fuel env unif t ts iht ihts hc
    rw [isCanonicalList] at hc
    simp at hc
    rw [canonicalizeList]
    simp [iht hc.1, ihts hc.2, Bind.bind, Except.bind]

theorem canonicalize_canonical : ∀ (fuel : Nat) (t : Ty) (env : Env) (unif : Unif),
    unif = [] → ∀ t', canonicalize fuel t env unif = .ok t' → isCanonical env t' = true := by
  apply canonicalize.induct
    (fun fuel t env unif => unif = [] →
      ∀ t', canonicalize fuel t env unif = .ok t' → isCanonical env t' = true)
    (fun fuel ts env unif => unif = [] →
      ∀ ts', canonicalizeList fuel ts env unif = .ok ts' → isCanonicalList env ts' = true)
  case _ =>
    intro fuel env unif n h _ t' ht
    rw [canonicalize] at ht
    simp [h] at ht
    rw [← ht, isCanonical]
    simp [h]
  case _ =>
    intro env unif n t h hne _ t' ht
    rw [canonicalize] at ht
    simp [h, hne] at ht
  case _ =>
    intro env unif n t h hne fuel ih hu t' ht
    rw [canonicalize] at ht
    simp [h, hne] at ht
    exact ih hu t' ht
  case _ =>
    intro fuel env unif n h _ t' ht
    rw [canonicalize] at ht
    simp [h] at ht
    rw [← ht, isCanonical]
    simp [h]
  case _ =>
    intro env unif i clo h hu t' ht
    subst hu
    simp [unifFind] at h
  case _ =>
    intro env unif i clo h fuel ih hu t' ht
    subst hu
    simp [unifFind] at h
  case _ =>
    intro fuel env unif i h _ t' ht
    rw [canonicalize] at ht
    simp [h] at ht
  case _ =>
    intro fuel env unif f kids ih hu t' ht
    rw [canonicalize] at ht
    cases hk : canonicalizeList fuel kids env unif with
    | error e => simp [hk, Bind.bind, Except.bind] at ht
    | ok ks' =>
      simp [hk, Bind.bind, Except.bind] at ht
      rw [← ht, isCanonical]
      exact ih hu ks' hk
  case _ =>
    intro fuel env unif cs ih hu t' ht
    rw [canonicalize] at ht
    cases hk : canonicalizeList fuel cs env unif with
    | error e => simp [hk, Bind.bind, Except.bind] at ht
    | ok cs' =>
      simp [hk, Bind.bind, Except.bind] at ht
      rw [← ht, isCanonical]
      exact ih hu cs' hk
  case _ =>
    intro fuel env unif r args ihr iha hu t' ht
    rw [canonicalize] at ht
    cases hr : canonicalize fuel r env unif with
    | error e => simp [hr, Bind.bind, Except.bind] at ht
    | ok r' =>
      cases ha : canonicalizeList fuel args env unif with
      | error e => simp [hr, ha, Bind.bind, Except.bind] at ht
      | ok as' =>
        simp [hr, ha, Bind.bind, Except.bind] at ht
        rw [← ht, isCanonical]
        simp [ihr hu r' hr, iha hu as' ha]
  case _ =>
    intro fuel env unif ps b ih hu t' ht
    rw [canonicalize] at ht
    cases hb : canonicalize fuel b (protect env ps) unif with
    | error e => simp [hb, Bind.bind, Except.bind] at ht
    | ok b' =>
      simp [hb, Bind.bind, Except.bind] at ht
      rw [← ht, isCanonical]
      exact ih hu b' hb
  case _ =>
    intro fuel env unif ps b ih hu t' ht
    rw [canonicalize] at ht
    cases hb : canonicalize fuel b (protect env ps) unif with
    | error e => simp [hb, Bind.bind, Except.bind] at ht
    | ok b' =>
      simp [hb, Bind.bind, Except.bind] at ht
      rw [← ht, isCanonical]
      exact ih hu b' hb
  case _ =>
    intro fuel env unif ds b ih hu t' ht
    rw [canonicalize] at ht
    cases hb : canonicalize fuel b env unif with
    | error e => simp [hb, Bind.bind, Except.bind] at ht
    | ok b' =>
      simp [hb, Bind.bind, Except.bind] at ht
      rw [← ht, isCanonical]
      exact ih hu b' hb
  case _ =>
    intro fuel env unif _ ts' ht
    rw [canonicalizeList] at ht
    injection ht with h
    subst h
    rfl
  case _ =>
    intro fuel env unif t ts iht ihts hu ts' ht
    rw [canonicalizeList] at ht
    cases h1 : canonicalize fuel t env unif with
    | error e => simp [h1, Bind.bind, Except.bind] at ht
    | ok t1 =>
      cases h2 : canonicalizeList fuel ts env unif with
      | error e => simp [h1, h2, Bind.bind, Except.bind] at ht
      | ok ts1 =>
        simp [h1, h2, Bind.bind, Except.bind] at ht
        rw [← ht, isCanonicalList]
        simp [iht hu t1 h1, ihts hu ts1 h2]

/-- C8 (amended): canonicalization is idempotent whenever the Unification
Store is empty: if `canonicalize(T, E)` succeeds with result `T'` under an
empty store, then canonicalizing `T'` under `E` (with any fuel) succeeds and
returns `T'` again.  Over a non-empty store the claim fails
(`canonicalize_not_idempotent`): a stored closure whose environment
mu-protects a name that `E` binds to a concrete type lets the protected
reference escape into the result, and re-canonicalizing expands it. -/
theorem canonicalize_idempotent_spec (f g : Nat) (t t' : Ty) (env : Env)
    (h : canonicalize f t env [] = .ok t') : canonicalize g t' env [] = .ok t' :=
  isCanonical_fix g t' env [] (canonicalize_canonical f t env [] rfl t' h)

/-- C8 counterexample: with the store binding placeholder `i` to the
closure `(b, [b ↦ b])` and the ambient environment binding `b` to `Float`,
canonicalizing `undet i` yields the protected reference `b`, but
canonicalizing that result again yields `Float` — the two differ, so
idempotence fails as universally stated. -/
theorem canonicalize_not_idempotent :
    canonicalize 5 (.undet (.str "i")) c8Env c8Unif = .ok (.vr (.str "b")) ∧
    canonicalize 5 (.vr (.str "b")) c8Env c8Unif = .ok (.node "Float" []) ∧
    Ty.vr (.str "b") ≠ .node "Float" [] := by
  refine ⟨?_, ?_, by simp⟩ <;>
    simp [canonicalize, canonicalizeList, c8Env, c8Unif, unifFind, envFind,
      Bind.bind, Except.bind]

/-- Witness for C8: a concrete bound variable canonicalizes to `Int`, and
re-canonicalizing `Int` is the identity. -/
theorem canonicalize_idempotent_spec_witness :
    canonicalize 3 (.vr (.str "a")) [(.str "a", .node "Int" [])] [] = .ok (.node "Int" []) ∧
    canonicalize 7 (.node "Int" []) [(.str "a", .node "Int" [])] [] = .ok (.node "Int" []) := by
  have h1 : canonicalize 3 (.vr (.str "a")) [(.str "a", .node "Int" [])] [] =
      .ok (.node "Int" []) := by
    simp [canonicalize, canonicalizeList, envFind, Bind.bind, Except.bind]
  exact ⟨h1, canonicalize_idempotent_spec 3 7 (.vr (.str "a")) (.node "Int" [])
    [(.str "a", .node "Int" [])] h1⟩

end TyCompare

namespace TyCompare

/-- Witness for C3: a driver resolving to a 2-tuple against 2 context
elements splices, assigning one component per position. -/
theorem splice_ddd_driver_spec_witness :
    splice_ddd 5 [(.str "T", .tuple [.node "Int" [], .node "Nat" []])] [.str "T"]
        (.vr (.str "T")) [.node "Int" [], .node "Nat" []] ⟨[], 0⟩ =
      .ok (some (updateEnvs (List.replicate 2 []) (.str "T")
          [.node "Int" [], .node "Nat" []], .vr (.str "T")), ⟨[], 0⟩) := by
  exact (splice_ddd_driver_spec 5 [(.str "T", .tuple [.node "Int" [], .node "Nat" []])]
      (.str "T") (.vr (.str "T")) [.node "Int" [], .node "Nat" []] ⟨[], 0⟩
      ⟨.tuple [.node "Int" [], .node "Nat" []],
        [(.str "T", .tuple [.node "Int" [], .node "Nat" []])]⟩
      (fun ds b h => by simp at h) rfl).2.1 [.node "Int" [], .node "Nat" []] rfl rfl

theorem envFind_envSet_self (env : Env) (n : Name) (t : Ty) :
    envFind (envSet env n t) n = some t := by
  simp [envFind, envSet]

theorem envFind_envSet_ne (env : Env) (n m : Name) (t : Ty) (h : m ≠ n) :
    envFind (envSet env m t) n = envFind env n := by
  simp [envFind, envSet, h]

theorem envFind_protect_not_mem : ∀ (ps : List Name) (env : Env) (n : Name), n ∉ ps →
    envFind (protect env ps) n = envFind env n := by
  intro ps
  induction ps with
  | nil => intro env n _; rfl
  | cons p rest ih =>
    intro env n h
    have hp : n ≠ p := fun hh => h (hh ▸ List.mem_cons_self p rest)
    have hr : n ∉ rest := fun hh => h (List.mem_cons_of_mem p hh)
    rw [show protect env (p :: rest) = protect (envSet env p (.vr p)) rest from rfl]
    rw [ih _ n hr]
    exact envFind_envSet_ne env n p (.vr p) (fun hh => hp hh.symm)

theorem envFind_protect_mem : ∀ (ps : List Name) (env : Env) (n : Name), n ∈ ps →
    envFind (protect env ps) n = some (.vr n) := by
  intro ps
  induction ps with
  | nil => intro env n h; simp at h
  | cons p rest ih =>
    intro env n h
    by_cases hn : n ∈ rest
    · exact ih _ n hn
    · have hp : n = p := by
        rcases List.mem_cons.mp h with h1 | h2
        · exact h1
        · exact absurd h2 hn
      subst hp
      rw [show protect env (n :: rest) = protect (envSet env n (.vr n)) rest from rfl]
      rw [envFind_protect_not_mem rest _ n hn]
      exact envFind_envSet_self env n (.vr n)

end TyCompare

namespace TyCompare

theorem envFind_bindParams_not_mem : ∀ (ps : List Name) (us : List Ty) (env : Env) (n : Name),
    n ∉ ps → envFind (bindParams env ps us) n = envFind env n := by
  intro ps
  induction ps with
  | nil => intro us env n _; cases us <;> rfl
  | cons p rest ih =>
    intro us env n h
    have hp : n ≠ p := fun hh => h (hh ▸ List.mem_cons_self p rest)
    have hr : n ∉ rest := fun hh => h (List.mem_cons_of_mem p hh)
    cases us with
    | nil => rfl
    | cons u urest =>
      rw [show bindParams env (p :: rest) (u :: urest) =
        bindParams (envSet env p u) rest urest from rfl]
      rw [ih urest _ n hr]
      exact envFind_envSet_ne env n p u (fun hh => hp hh.symm)

theorem envFind_bindParams_mem : ∀ (ps : List Name) (us : List Ty) (env : Env) (n : Name),
    n ∈ ps → ps.length = us.length →
    ∃ u, u ∈ us ∧ envFind (bindParams env ps us) n = some u := by
  intro ps
  induction ps with
  | nil => intro us env n h _; simp at h
  | cons p rest ih =>
    intro us env n h hlen
    cases us with
    | nil => simp at hlen
    | cons u urest =>
      rw [show bindParams env (p :: rest) (u :: urest) =
        bindParams (envSet env p u) rest urest from rfl]
      by_cases hn : n ∈ rest
      · obtain ⟨u', hu', he⟩ := ih urest (envSet env p u) n hn (by simpa using hlen)
        exact ⟨u', List.mem_cons_of_mem u hu', he⟩
      · have hp : n = p := by
          rcases List.mem_cons.mp h with h1 | h2
          · exact h1
          · exact absurd h2 hn
        subst hp
        refine ⟨u, List.mem_cons_self u urest, ?_⟩
        rw [envFind_bindParams_not_mem rest urest _ n hn]
        exact envFind_envSet_self env n u

theorem freshUndets_st : ∀ (k : Nat) (hint : String) (st : St),
    (freshUndets hint k st).2 = ⟨st.unif, st.next + k⟩ := by
  intro k
  induction k with
  | zero => intro hint st; rfl
  | succ m ih =>
    intro hint st
    rw [freshUndets]
    simp [underspecified, ih]
    omega

theorem freshUndets_mem : ∀ (k : Nat) (hint : String) (st : St) (u : Ty),
    u ∈ (freshUndets hint k st).1 → ∃ j, u = .undet (.gen hint j) ∧ st.next ≤ j := by
  intro k
  induction k with
  | zero => intro hint st u h; simp [freshUndets] at h
  | succ m ih =>
    intro hint st u h
    rw [freshUndets] at h
    simp [underspecified] at h
    rcases h with h | h
    · exact ⟨st.next, h, Nat.le_refl _⟩
    · obtain ⟨j, hj, hle⟩ := ih hint ⟨st.unif, st.next + 1⟩ u h
      simp only [] at hle
      exact ⟨j, hj, by omega⟩

theorem resolve_stuck (f : Nat) (t : Ty) (env : Env) (u : Unif)
    (h1 : ∀ n, t ≠ .vr n) (h2 : ∀ i, t ≠ .undet i) (h3 : ∀ r as, t ≠ .typeApply r as) :
    resolve (f + 1) ⟨t, env⟩ u = .ok ⟨t, env⟩ := by
  cases t with
  | vr n => exact absurd rfl (h1 n)
  | undet i => exact absurd rfl (h2 i)
  | typeApply r as => exact absurd rfl (h3 r as)
  | node _ _ => rfl
  | tuple _ => rfl
  | forallTy _ _ => rfl
  | muTy _ _ => rfl
  | dddTy _ _ => rfl

theorem resolve_undet_unbound (f : Nat) (g : Name) (env : Env) (u : Unif)
    (h : unifFind u g = none) :
    resolve (f + 1) ⟨.undet g, env⟩ u = .ok ⟨.undet g, env⟩ := by
  rw [resolve]
  simp [h]

theorem resolve_vr_undet (f : Nat) (n g : Name) (env : Env) (u : Unif)
    (h1 : envFind env n = some (.undet g)) (h2 : unifFind u g = none) :
    resolve (f + 2) ⟨.vr n, env⟩ u = .ok ⟨.undet g, env⟩ := by
  rw [resolve]
  simp [h1]
  exact resolve_undet_unbound f g env u h2

theorem undetId_stuck (t : Ty)
    (h2 : ∀ i, t ≠ .undet i) : undetId t = none := by
  cases t <;> first | rfl | exact absurd rfl (h2 _)

theorem pre_match_stuck (f : Nat) (t : Ty) (env : Env) (u : Unif)
    (h1 : ∀ n, t ≠ .vr n) (h2 : ∀ i, t ≠ .undet i) (h3 : ∀ r as, t ≠ .typeApply r as) :
    pre_match (f + 1) t t env u = .ok (some (⟨t, env⟩, ⟨t, env⟩), u) := by
  rw [pre_match]
  rw [resolve_stuck f t env u h1 h2 h3]
  simp [Bind.bind, Except.bind, undetId_stuck t h2]

theorem pre_match_vr_self_undet (f : Nat) (n g : Name) (env : Env) (u : Unif)
    (h1 : envFind env n = some (.undet g)) (h2 : unifFind u g = none) :
    pre_match (f + 2) (.undet g) (.vr n) env u = .ok (none, u) := by
  rw [pre_match]
  rw [show f + 2 = (f + 1) + 1 from rfl]
  rw [resolve_undet_unbound (f + 1) g env u h2]
  rw [show (f + 1) + 1 = f + 2 from rfl]
  rw [resolve_vr_undet f n g env u h1 h2]
  simp [Bind.bind, Except.bind, undetId]

end TyCompare

namespace TyCompare

theorem walkS_stuck (f : Nat) (t : Ty) (env : Env) (st : St)
    (h1 : ∀ n, t ≠ .vr n) (h2 : ∀ i, t ≠ .undet i) (h3 : ∀ r as, t ≠ .typeApply r as) :
    walkS (f + 1) t t env st = compareQL f t t env st := by
  have hpm := pre_match_stuck f t env st.unif h1 h2 h3
  cases t with
  | vr n => exact absurd rfl (h1 n)
  | undet i => exact absurd rfl (h2 i)
  | typeApply r as => exact absurd rfl (h3 r as)
  | node _ _ =>
    rw [walkS, hpm] <;> simp [Bind.bind, Except.bind]
  | tuple _ =>
    rw [walkS, hpm] <;> simp [Bind.bind, Except.bind]
  | forallTy _ _ =>
    rw [walkS, hpm] <;> simp [Bind.bind, Except.bind]
  | muTy _ _ =>
    rw [walkS, hpm] <;> simp [Bind.bind, Except.bind]
  | dddTy _ _ =>
    rw [walkS, hpm] <;> simp [Bind.bind, Except.bind]

theorem walkPairs_refl_of (bound : List Name) (env : Env) :
    ∀ (ks : List Ty), wfBList bound ks = true →
    (∀ k, k ∈ ks → ∀ (st : St) (fuel : Nat), EnvOk st.unif env bound → FreshSt st →
      fuelNeed k ≤ fuel →
      ∃ nk, walkS fuel k k env st = .ok ([], ⟨st.unif, nk⟩) ∧ st.next ≤ nk) →
    ∀ (st : St) (fuel : Nat), EnvOk st.unif env bound → FreshSt st →
      fuelNeedList ks ≤ fuel →
      ∃ nk, walkPairs fuel ks ks env st = .ok ([], ⟨st.unif, nk⟩) ∧ st.next ≤ nk := by
  intro ks
  induction ks with
  | nil =>
    intro _ _ st fuel _ _ hfuel
    obtain ⟨f, rfl⟩ : ∃ f, fuel = f + 1 := ⟨fuel - 1, by rw [fuelNeedList] at hfuel; omega⟩
    exact ⟨st.next, rfl, Nat.le_refl _⟩
  | cons k rest ih =>
    intro hwf H st fuel henv hfresh hfuel
    rw [fuelNeedList] at hfuel
    obtain ⟨f, rfl⟩ : ∃ f, fuel = f + 1 := ⟨fuel - 1, by omega⟩
    rw [wfBList] at hwf
    simp at hwf
    obtain ⟨nk1, hw1, hle1⟩ := H k (List.mem_cons_self k rest) st f henv hfresh (by omega)
    have hfresh1 : FreshSt ⟨st.unif, nk1⟩ := by
      intro s j hj
      exact hfresh s j (by simp only [] at hj ⊢; omega)
    obtain ⟨nk2, hw2, hle2⟩ := ih hwf.2
      (fun k' hk' => H k' (List.mem_cons_of_mem k hk'))
      ⟨st.unif, nk1⟩ f henv hfresh1 (by omega)
    refine ⟨nk2, ?_, ?_⟩
    · rw [walkPairs, hw1]
      simp [Bind.bind, Except.bind, hw2]
    · simp only [] at hle2
      omega

end TyCompare

namespace TyCompare

theorem wfBList_mem : ∀ (bound : List Name) (ks : List Ty), wfBList bound ks = true →
    ∀ k, k ∈ ks → wfB bound k = true := by
  intro bound ks
  induction ks with
  | nil => intro _ k hk; simp at hk
  | cons a rest ih =>
    intro h k hk
    rw [wfBList] at h
    simp at h
    rcases List.mem_cons.mp hk with h1 | h2
    · exact h1 ▸ h.1
    · exact ih h.2 k h2

theorem freshUndets_length : ∀ (k : Nat) (hint : String) (st : St),
    (freshUndets hint k st).1.length = k := by
  intro k
  induction k with
  | zero => intro hint st; rfl
  | succ m ih =>
    intro hint st
    rw [freshUndets]
    simp [underspecified, ih]

theorem wfB_tuple_elim (bound : List Name) (cs : List Ty)
    (h : wfB bound (.tuple cs) = true) :
    (∀ ds b, cs ≠ [Ty.dddTy ds b]) ∧ wfBList bound cs := by
  refine ⟨fun ds b hc => ?_, ?_⟩
  · rw [hc, wfB] at h
    simp at h
  · rcases cs with _ | ⟨c, rest⟩
    · rw [wfBList]
    · rcases rest with _ | ⟨c2, rest2⟩
      · cases c <;> simp only [wfB] at h <;> exact h
      · simp only [wfB] at h
        exact h

theorem compareQL_tuple_plain (f : Nat) (cs cs' : List Ty) (env : Env) (st : St)
    (h : ∀ ds b, cs ≠ [Ty.dddTy ds b]) :
    compareQL (f + 1) (.tuple cs) (.tuple cs') env st =
      if cs.length = cs'.length then walkPairs f cs cs' env st
      else .error (.tyErr (.mismatch (.tuple cs') (.tuple cs))) := by
  rw [compareQL]
  exact fun ds b hc => (h ds b) hc

theorem walk_refl_aux : ∀ (N : Nat) (t : Ty), sizeOf t ≤ N →
    ∀ (bound : List Name) (env : Env) (st : St) (fuel : Nat),
    wfB bound t = true → EnvOk st.unif env bound → FreshSt st → fuelNeed t ≤ fuel →
    ∃ nk, walkS fuel t t env st = .ok ([], ⟨st.unif, nk⟩) ∧ st.next ≤ nk := by
  intro N
  induction N using Nat.strong_induction_on with
  | _ N IH =>
  intro t hsize bound env st fuel hwf henv hfresh hfuel
  cases t with
  | undet i => rw [wfB] at hwf; simp at hwf
  | typeApply r as => rw [wfB] at hwf; simp at hwf
  | dddTy ds b => rw [wfB] at hwf; simp at hwf
  | vr n =>
    rw [wfB] at hwf
    simp at hwf
    rw [fuelNeed] at hfuel
    obtain ⟨f, rfl⟩ : ∃ f, fuel = f + 1 + 1 + 1 + 1 := ⟨fuel - 4, by omega⟩
    rcases henv n hwf with hfind | ⟨s, k, hfind, hg⟩
    · refine ⟨st.next, ?_, Nat.le_refl _⟩
      rw [walkS]
      simp [hfind]
    · refine ⟨st.next, ?_, Nat.le_refl _⟩
      rw [walkS]
      simp only [hfind]
      rw [if_neg (by simp)]
      rw [walkS]
      have hpm := pre_match_vr_self_undet (f + 1) n (.gen s k) env st.unif hfind hg
      rw [show f + 1 + 1 + 1 = (f + 1) + 2 from rfl] at hpm ⊢
      rw [hpm]
      simp [Bind.bind, Except.bind]
      simp
  | node f0 ks =>
    rw [wfB] at hwf
    rw [fuelNeed] at hfuel
    obtain ⟨f, rfl⟩ : ∃ f, fuel = f + 1 + 1 := ⟨fuel - 2, by omega⟩
    rw [walkS_stuck (f + 1) _ env st (by simp) (by simp) (by simp)]
    rw [compareQL]
    simp only [if_pos (by exact ⟨rfl, rfl⟩ : f0 = f0 ∧ ks.length = ks.length)]
    exact walkPairs_refl_of bound env ks hwf
      (fun k hk st' fuel' henv' hfresh' hfuel' =>
        IH (sizeOf k)
          (by
            have := List.sizeOf_lt_of_mem hk
            have hs : sizeOf (Ty.node f0 ks) = 1 + sizeOf f0 + sizeOf ks := by simp
            omega)
          k (Nat.le_refl _) bound env st' fuel' (wfBList_mem bound ks hwf k hk)
          henv' hfresh' hfuel')
      st f henv hfresh (by omega)
  | tuple cs =>
    obtain ⟨hnd, hwfl⟩ := wfB_tuple_elim bound cs hwf
    rw [fuelNeed] at hfuel
    obtain ⟨f, rfl⟩ : ∃ f, fuel = f + 1 + 1 := ⟨fuel - 2, by omega⟩
    rw [walkS_stuck (f + 1) _ env st (by simp) (by simp) (by simp)]
    rw [compareQL_tuple_plain f cs cs env st hnd]
    simp only [if_pos rfl]
    exact walkPairs_refl_of bound env cs hwfl
      (fun k hk st' fuel' henv' hfresh' hfuel' =>
        IH (sizeOf k)
          (by
            have := List.sizeOf_lt_of_mem hk
            have hs : sizeOf (Ty.tuple cs) = 1 + sizeOf cs := by simp
            omega)
          k (Nat.le_refl _) bound env st' fuel' (wfBList_mem bound cs hwfl k hk)
          henv' hfresh' hfuel')
      st f henv hfresh (by omega)
  | forallTy ps b =>
    rw [wfB] at hwf
    rw [fuelNeed] at hfuel
    obtain ⟨f, rfl⟩ : ∃ f, fuel = f + 1 + 1 := ⟨fuel - 2, by omega⟩
    rw [walkS_stuck (f + 1) _ env st (by simp) (by simp) (by simp)]
    rw [compareQL]
    simp only [if_pos rfl]
    have hst' : (freshUndets "forall" ps.length st).2 = ⟨st.unif, st.next + ps.length⟩ :=
      freshUndets_st ps.length "forall" st
    set us := (freshUndets "forall" ps.length st).1 with hus
    have hlen : ps.length = us.length := (freshUndets_length ps.length "forall" st).symm
    set env' := bindParams (bindParams env ps us) ps us with henv'
    have henvOk : EnvOk st.unif env' (ps ++ bound) := by
      intro n hn
      by_cases hmem : n ∈ ps
      · obtain ⟨u, humem, hfind⟩ := envFind_bindParams_mem ps us
          (bindParams env ps us) n hmem hlen
        obtain ⟨j, rfl, hj⟩ := freshUndets_mem ps.length "forall" st u humem
        exact Or.inr ⟨"forall", j, hfind, hfresh "forall" j hj⟩
      · have hb : n ∈ bound := by
          rcases List.mem_append.mp hn with h1 | h2
          · exact absurd h1 hmem
          · exact h2
        rw [henv']
        rw [envFind_bindParams_not_mem ps us _ n hmem,
          envFind_bindParams_not_mem ps us _ n hmem]
        exact henv n hb
    have hfresh' : FreshSt ⟨st.unif, st.next + ps.length⟩ := by
      intro s j hj
      simp only [] at hj
      exact hfresh s j (by omega)
    obtain ⟨nk, hw, hle⟩ := IH (sizeOf b)
      (by
        have hs : sizeOf (Ty.forallTy ps b) = 1 + sizeOf ps + sizeOf b := by simp
        omega)
      b (Nat.le_refl _) (ps ++ bound) env' ⟨st.unif, st.next + ps.length⟩ f hwf henvOk
      hfresh' (by omega)
    refine ⟨nk, ?_, ?_⟩
    · rw [hst']
      exact hw
    · simp only [] at hle
      omega
  | muTy ps b =>
    rw [wfB] at hwf
    rw [fuelNeed] at hfuel
    obtain ⟨f, rfl⟩ : ∃ f, fuel = f + 1 + 1 := ⟨fuel - 2, by omega⟩
    rw [walkS_stuck (f + 1) _ env st (by simp) (by simp) (by simp)]
    rw [compareQL]
    simp only [if_pos rfl]
    have henvOk : EnvOk st.unif (protect (protect env ps) ps) (ps ++ bound) := by
      intro n hn
      by_cases hmem : n ∈ ps
      · exact Or.inl (envFind_protect_mem ps (protect env ps) n hmem)
      · have hb : n ∈ bound := by
          rcases List.mem_append.mp hn with h1 | h2
          · exact absurd h1 hmem
          · exact h2
        rw [envFind_protect_not_mem ps _ n hmem, envFind_protect_not_mem ps _ n hmem]
        exact henv n hb
    exact IH (sizeOf b)
      (by
        have hs : sizeOf (Ty.muTy ps b) = 1 + sizeOf ps + sizeOf b := by simp
        omega)
      b (Nat.le_refl _) (ps ++ bound) (protect (protect env ps) ps) st f hwf henvOk
      hfresh (by omega)

end TyCompare

namespace TyCompare

/-- C6: subtyping is reflexive.  For every well-formed type `T` (`wfTy`:
built from generic nodes, tuples, `forall_type` and `mu_type`, every
variable reference bound by an enclosing binder), every environment, and
every gensym-hygienic walk state, `is_subtype(T, T, E)` succeeds given fuel
proportional to `T`'s size, returning no discovered bindings and leaving
the Unification Store exactly as it was (only the gensym counter may
advance, for the placeholders `forall_type` instantiation genuinely
requires). -/
theorem is_subtype_refl (t : Ty) (env : Env) (st : St) (fuel : Nat)
    (hwf : wfTy t = true) (hfresh : FreshSt st) (hfuel : fuelNeed t ≤ fuel) :
    ∃ nk, is_subtype fuel t t env st = .ok ([], ⟨st.unif, nk⟩) ∧ st.next ≤ nk :=
  walk_refl_aux (sizeOf t) t (Nat.le_refl _) [] env st fuel hwf
    (fun n hn => absurd hn (by simp)) hfresh hfuel

/-- Witness for C6: the identity-function type `∀ t. fn(t, t)` is a subtype
of itself from the empty state. -/
theorem is_subtype_refl_witness :
    ∃ nk, is_subtype 10 (.forallTy [.str "t"] (.node "fn" [.vr (.str "t"), .vr (.str "t")]))
        (.forallTy [.str "t"] (.node "fn" [.vr (.str "t"), .vr (.str "t")])) [] ⟨[], 0⟩ =
      .ok ([], ⟨[], nk⟩) ∧ 0 ≤ nk := by
  exact is_subtype_refl (.forallTy [.str "t"] (.node "fn" [.vr (.str "t"), .vr (.str "t")]))
    [] ⟨[], 0⟩ 10 (by decide) (fun s k _ => rfl) (by decide)

end TyCompare
